import Mathlib

/-!
Verification of the STAC DEM BC metadata-cache and item-synthesis pipeline.

The definitions below are shallow embeddings of the Python functions in
`scripts/stac_utils.py`, `scripts/item_create.py` and
`scripts/item_extract_invalid.py`.  Strings are modelled as Lean `String`
(lists of characters); Python character classes `\d` / `[0-9]` are modelled
as ASCII digits, which is exact for every URL the pipeline handles.
-/

namespace StacDemBc

/-- `PATH_S3` from `stac_utils.py`. -/
def PATH_S3 : String := "https://nrs.objectstore.gov.bc.ca/gdwuts"

/-- `PATH_S3_STAC` from `stac_utils.py`. -/
def PATH_S3_STAC : String := "https://stac-dem-bc.s3.amazonaws.com"

/-- Python `s.startswith(pre)`. -/
def pyStartsWith (s pre : String) : Bool := pre.data.isPrefixOf s.data

/-- Python `s.replace(pat, rep, 1)`: replace the first occurrence of `pat`
(searching left to right) by `rep`. -/
def replaceFirstL (pat rep : List Char) : List Char → List Char
  | [] => if pat.isPrefixOf ([] : List Char) then rep else []
  | c :: cs =>
    if pat.isPrefixOf (c :: cs) then rep ++ (c :: cs).drop pat.length
    else c :: replaceFirstL pat rep cs

/-- `fix_url` from `stac_utils.py`:
`if url.startswith("https:/") and not url.startswith("https://"):
   return url.replace("https:/", "https://", 1)
 return url`. -/
def fix_url (url : String) : String :=
  if pyStartsWith url "https:/" && !(pyStartsWith url "https://") then
    String.mk (replaceFirstL "https:/".data "https://".data url.data)
  else url

/-- Python `s.removesuffix(suf)`. -/
def removeSuffixL (suf l : List Char) : List Char :=
  if suf.isSuffixOf l then l.take (l.length - suf.length) else l

/-- `url_to_item_id` from `stac_utils.py`:
`url[len(PATH_S3):].lstrip("/").replace("/", "-").removesuffix(".tif")`.
`replace` of one character by another is a character-wise map. -/
def url_to_item_id (url : String) : String :=
  String.mk (removeSuffixL ".tif".data
    (((url.data.drop PATH_S3.length).dropWhile (fun c => c = '/')).map
      (fun c => if c = '/' then '-' else c)))

/-- `item_id_to_url` from `item_extract_invalid.py`:
`url_path = item_id.replace("-", "/"); return f"{PATH_S3}/{url_path}.tif"`. -/
def item_id_to_url (item_id : String) : String :=
  PATH_S3 ++ "/" ++ String.mk (item_id.data.map (fun c => if c = '-' then '/' else c)) ++ ".tif"

/-- When `pat` is a prefix of `s`, replacing its first occurrence rewrites the
front of the string. -/
theorem replaceFirstL_front (pat rep s : List Char) (h : pat.isPrefixOf s = true) :
    replaceFirstL pat rep s = rep ++ s.drop pat.length := by
  cases s with
  | nil =>
    have hp : pat = [] := by
      simpa using h
    simp [replaceFirstL, hp]
  | cons c cs => simp [replaceFirstL, h]

/-- C6: the URL normalizer is idempotent, and on any string that does not show
the single-slash-after-scheme malformation (i.e. it is not the case that the
string starts with "https:/" but not with "https://") it is the identity. -/
theorem fix_url_idempotent_minimal :
    (∀ x : String, fix_url (fix_url x) = fix_url x) ∧
    (∀ x : String,
      ¬(pyStartsWith x "https:/" = true ∧ pyStartsWith x "https://" = false) →
      fix_url x = x) := by
  have hfix : ∀ x : String,
      ¬(pyStartsWith x "https:/" = true ∧ pyStartsWith x "https://" = false) →
      fix_url x = x := by
    intro x hx
    have hcond : (pyStartsWith x "https:/" && !(pyStartsWith x "https://")) = false := by
      rcases Bool.eq_false_or_eq_true (pyStartsWith x "https:/") with h1 | h1
      · rcases Bool.eq_false_or_eq_true (pyStartsWith x "https://") with h2 | h2
        · simp [h2]
        · exact absurd ⟨h1, h2⟩ hx
      · simp [h1]

    simp [fix_url, hcond]
  refine ⟨?_, hfix⟩
  intro x
  by_cases hc : (pyStartsWith x "https:/" && !(pyStartsWith x "https://")) = true
  · have h1 : pyStartsWith x "https:/" = true := by
      have := hc
      simp [Bool.and_eq_true] at this
      exact this.1
    have hx : fix_url x =
        String.mk ("https://".data ++ x.data.drop "https:/".data.length) := by
      simp only [fix_url, hc, if_true]
      rw [replaceFirstL_front _ _ _ h1]
    have hpre : pyStartsWith (fix_url x) "https://" = true := by
      rw [hx]
      simp [pyStartsWith]
    apply hfix
    intro hcontra
    rw [hpre] at hcontra
    exact absurd hcontra.2 (by decide)
  · have hc' : (pyStartsWith x "https:/" && !(pyStartsWith x "https://")) = false := by
      simpa using hc
    have hx : fix_url x = x := by simp [fix_url, hc']
    rw [hx, hx]

/-- Witness for C6: a well-formed URL passes through `fix_url` unchanged. -/
theorem fix_url_idempotent_minimal_witness :
    fix_url "https://nrs.objectstore.gov.bc.ca/gdwuts/a.tif" =
      "https://nrs.objectstore.gov.bc.ca/gdwuts/a.tif" :=
  fix_url_idempotent_minimal.2 "https://nrs.objectstore.gov.bc.ca/gdwuts/a.tif" (by decide)

/-- C10: for every input string, the derived item id contains no path
separator, so the per-item JSON destination `path_local ++ "/" ++ id ++ ".json"`
is a single component inside the output directory. -/
theorem url_to_item_id_no_slash (url : String) : '/' ∉ (url_to_item_id url).data := by
  intro hmem
  have hmem' : '/' ∈ removeSuffixL ".tif".data
      (((url.data.drop PATH_S3.length).dropWhile (fun c => c = '/')).map
        (fun c => if c = '/' then '-' else c)) := hmem
  have hmap : '/' ∈ ((url.data.drop PATH_S3.length).dropWhile (fun c => c = '/')).map
      (fun c => if c = '/' then '-' else c) := by
    unfold removeSuffixL at hmem'
    split at hmem'
    · exact List.take_subset _ _ hmem'
    · exact hmem'
  rw [List.mem_map] at hmap
  obtain ⟨a, _, ha⟩ := hmap
  by_cases hc : a = '/' <;> simp [hc] at ha

/-- C7: for a URL `PATH_S3 ++ "/" ++ p ++ ".tif"` whose path part `p` does not
begin with "/" and contains no "-", converting to an item id and back restores
the URL exactly. -/
theorem item_id_url_round_trip (p : String)
    (hdash : ∀ c ∈ p.data, c ≠ '-')
    (hslash : p.data.head? ≠ some '/') :
    item_id_to_url (url_to_item_id (PATH_S3 ++ "/" ++ p ++ ".tif")) =
      PATH_S3 ++ "/" ++ p ++ ".tif" := by
  have hdata : (PATH_S3 ++ "/" ++ p ++ ".tif").data =
      PATH_S3.data ++ ('/' :: (p.data ++ ".tif".data)) := by
    simp [String.data_append]
  have hdrop : (PATH_S3 ++ "/" ++ p ++ ".tif").data.drop PATH_S3.length =
      '/' :: (p.data ++ ".tif".data) := by
    rw [hdata]
    exact List.drop_left' rfl
  have hstrip : (((PATH_S3 ++ "/" ++ p ++ ".tif").data.drop PATH_S3.length).dropWhile
      (fun c => c = '/')) = p.data ++ ".tif".data := by
    rw [hdrop]
    rw [List.dropWhile_cons_of_pos (by simp)]
    cases hp : p.data with
    | nil => simp
    | cons a as =>
      have ha : a ≠ '/' := by
        rw [hp] at hslash
        simpa using hslash
      simp [List.dropWhile_cons_of_neg, ha]
  have hmap : (p.data ++ ".tif".data).map (fun c => if c = '/' then '-' else c) =
      p.data.map (fun c => if c = '/' then '-' else c) ++ ".tif".data := by
    rw [List.map_append]
    congr 1
  have hsuffix : removeSuffixL ".tif".data
      (p.data.map (fun c => if c = '/' then '-' else c) ++ ".tif".data) =
      p.data.map (fun c => if c = '/' then '-' else c) := by
    unfold removeSuffixL
    rw [if_pos]
    · rw [List.length_append, List.length_map]
      have hlen : p.data.length + ".tif".data.length - ".tif".data.length =
          p.data.length := by omega
      rw [hlen]
      exact List.take_left' (by simp)
    · simp
  have hid : url_to_item_id (PATH_S3 ++ "/" ++ p ++ ".tif") =
      String.mk (p.data.map (fun c => if c = '/' then '-' else c)) := by
    unfold url_to_item_id
    rw [hstrip, hmap, hsuffix]
  rw [hid]
  have hback : (p.data.map (fun c => if c = '/' then '-' else c)).map
      (fun c => if c = '-' then '/' else c) = p.data := by
    rw [List.map_map]
    have : ∀ c ∈ p.data,
        ((fun c => if c = '-' then '/' else c) ∘ (fun c => if c = '/' then '-' else c)) c =
          id c := by
      intro c hc
      by_cases h : c = '/'
      · simp [h]
      · simp [h, hdash c hc]
    rw [List.map_congr_left this, List.map_id]
  unfold item_id_to_url
  apply String.ext
  simp only [String.data_append]
  rw [hback]

/-- Witness for C7: the round trip on a concrete dash-free path. -/
theorem item_id_url_round_trip_witness :
    item_id_to_url (url_to_item_id
      (PATH_S3 ++ "/" ++ "albers10k2m/_completed_dem/dem_165_071" ++ ".tif")) =
      PATH_S3 ++ "/" ++ "albers10k2m/_completed_dem/dem_165_071" ++ ".tif" :=
  item_id_url_round_trip "albers10k2m/_completed_dem/dem_165_071" (by decide) (by decide)

/-! ### Date extraction (`date_extract_from_path`)

Embeds the two regex searches of `stac_utils.date_extract_from_path`:
`re.search(r'_utm\d\x7b1,2\x7d_([0-9]\x7b4,8\x7d)', s)` and the fallback
`re.search(r'/([2][0-9]\x7b3\x7d)/', s)`, with Python's leftmost-match,
greedy-with-backtracking semantics made explicit. -/

/-- Greedy `[0-9]{4,8}` capture: up to 8 leading ASCII digits, at least 4. -/
def digitsCapture (l : List Char) : Option (List Char) :=
  let ds := (l.takeWhile Char.isDigit).take 8
  if 4 ≤ ds.length then some ds else none

/-- Match `\d{1,2}_([0-9]{4,8})` with the regex engine's greedy order:
two digits first, backtracking to one digit. -/
def utmDigits (rest : List Char) : Option (List Char) :=
  match (match rest with
         | a :: b :: '_' :: r2 =>
           if a.isDigit && b.isDigit then digitsCapture r2 else none
         | _ => none) with
  | some v => some v
  | none =>
    match rest with
    | a :: '_' :: r2 => if a.isDigit then digitsCapture r2 else none
    | _ => none

/-- Match the whole pattern `_utm\d{1,2}_([0-9]{4,8})` anchored at the head. -/
def matchUtmAt : List Char → Option (List Char)
  | '_' :: 'u' :: 't' :: 'm' :: rest => utmDigits rest
  | _ => none

/-- `re.search` for the `_utm` pattern: first (leftmost) position that matches. -/
def searchUtm : List Char → Option (List Char)
  | [] => none
  | c :: rest =>
    match matchUtmAt (c :: rest) with
    | some v => some v
    | none => searchUtm rest

/-- Match `/([2][0-9]{3})/` anchored at the head. -/
def matchFallbackAt : List Char → Option (List Char)
  | '/' :: '2' :: b :: c :: d :: '/' :: _ =>
    if b.isDigit && c.isDigit && d.isDigit then some ['2', b, c, d] else none
  | _ => none

/-- `re.search` for the `/YYYY/` fallback pattern. -/
def searchFallback : List Char → Option (List Char)
  | [] => none
  | c :: rest =>
    match matchFallbackAt (c :: rest) with
    | some v => some v
    | none => searchFallback rest

/-- Python `int` of a decimal digit string. -/
def listToNat (l : List Char) : Nat :=
  l.foldl (fun a c => a * 10 + (c.toNat - 48)) 0

/-- `int(val[:4])` of `date_extract_from_path`. -/
def year4 (l : List Char) : Nat := listToNat (l.take 4)

/-- The fallback branch of `date_extract_from_path`.  The code returns
`str(year)`, which equals the captured four characters because the capture
starts with '2' (no leading zero). -/
def fallbackCase (s : String) : Option String :=
  match searchFallback s.data with
  | some cap =>
    if 2000 ≤ listToNat cap ∧ listToNat cap ≤ 2050 then some (String.mk cap) else none
  | none => none

/-- `date_extract_from_path` from `stac_utils.py`. -/
def date_extract_from_path (s : String) : Option String :=
  match searchUtm s.data with
  | some val =>
    if val.all Char.isDigit then
      if 2000 ≤ year4 val ∧ year4 val ≤ 2050 then some (String.mk val)
      else fallbackCase s
    else fallbackCase s
  | none => fallbackCase s

/-! ### Date parsing (`datetime_parse_item`)

Models Python `datetime.strptime` for the two fixed formats `%Y%m%d` and
`%Y`, including the ordered-alternation/backtracking regex semantics of
`_strptime` (month `1[0-2]|0[1-9]|[1-9]`, day `3[01]|[12]\d|0[1-9]|[1-9]`),
the trailing "unconverted data remains" check, and calendar validation.
A raised `ValueError` is modelled as `Except.error`. -/

/-- A Python `datetime` as constructed by this pipeline (time-of-day fields
are always midnight; `tzUtc` records the `timezone.utc` tzinfo). -/
structure PyDatetime where
  year : Nat
  month : Nat
  day : Nat
  hour : Nat
  minute : Nat
  second : Nat
  tzUtc : Bool
deriving DecidableEq, Repr

/-- Gregorian leap year, as Python's `datetime` uses. -/
def isLeapYear (y : Nat) : Bool :=
  y % 4 = 0 && (y % 100 ≠ 0 || y % 400 = 0)

/-- Days in a month, as Python's `datetime` uses. -/
def daysInMonth (y m : Nat) : Nat :=
  if m = 2 then (if isLeapYear y then 29 else 28)
  else if m = 4 ∨ m = 6 ∨ m = 9 ∨ m = 11 then 30
  else 31

/-- `datetime(y, m, d)` construction succeeds (MINYEAR ≤ y ≤ MAXYEAR and a
valid calendar date). -/
def dateValid (y m d : Nat) : Bool :=
  1 ≤ y && y ≤ 9999 && 1 ≤ m && m ≤ 12 && 1 ≤ d && d ≤ daysInMonth y m

def digitVal (c : Char) : Nat := c.toNat - 48

/-- Day alternation `3[01]|[12]\d|0[1-9]|[1-9]`, in engine order; returns the
day value and the unconsumed rest. -/
def dayAlt (r : List Char) : Option (Nat × List Char) :=
  match r with
  | '3' :: x :: r2 =>
    if x = '0' ∨ x = '1' then some (30 + digitVal x, r2) else dayAltRest r
  | _ => dayAltRest r
where
  dayAltRest (r : List Char) : Option (Nat × List Char) :=
    match r with
    | a :: b :: r2 =>
      if (a = '1' ∨ a = '2') ∧ b.isDigit then some (10 * digitVal a + digitVal b, r2)
      else if a = '0' ∧ ('1' ≤ b ∧ b ≤ '9') then some (digitVal b, r2)
      else if '1' ≤ a ∧ a ≤ '9' then some (digitVal a, b :: r2)
      else none
    | [a] => if '1' ≤ a ∧ a ≤ '9' then some (digitVal a, []) else none
    | [] => none

/-- Month alternation `1[0-2]|0[1-9]|[1-9]` combined with the day match,
with backtracking over the month alternatives in engine order. -/
def monthDay (rest : List Char) : Option (Nat × Nat × List Char) :=
  (match rest with
   | '1' :: x :: r =>
     if x = '0' ∨ x = '1' ∨ x = '2' then
       match dayAlt r with
       | some (d, lo) => some (10 + digitVal x, d, lo)
       | none => monthDayRest rest
     else monthDayRest rest
   | _ => monthDayRest rest)
where
  monthDayRest (rest : List Char) : Option (Nat × Nat × List Char) :=
    (match rest with
     | '0' :: x :: r =>
       if '1' ≤ x ∧ x ≤ '9' then
         match dayAlt r with
         | some (d, lo) => some (digitVal x, d, lo)
         | none => monthDayOne rest
       else monthDayOne rest
     | _ => monthDayOne rest)
  monthDayOne (rest : List Char) : Option (Nat × Nat × List Char) :=
    match rest with
    | a :: r =>
      if '1' ≤ a ∧ a ≤ '9' then
        match dayAlt r with
        | some (d, lo) => some (digitVal a, d, lo)
        | none => none
      else none
    | [] => none

/-- `datetime.strptime(s, "%Y%m%d")`: `none` models a raised `ValueError`. -/
def strptimeYmd (l : List Char) : Option (Nat × Nat × Nat) :=
  match l with
  | a :: b :: c :: d :: rest =>
    if a.isDigit && b.isDigit && c.isDigit && d.isDigit then
      match monthDay rest with
      | some (m, dd, leftover) =>
        if leftover = [] ∧ dateValid (listToNat [a, b, c, d]) m dd = true then
          some (listToNat [a, b, c, d], m, dd)
        else none
      | none => none
    else none
  | _ => none

/-- `datetime.strptime(s, "%Y")` (then `datetime(y, 1, 1)`): `none` models a
raised `ValueError`. -/
def strptimeY (l : List Char) : Option Nat :=
  match l with
  | [a, b, c, d] =>
    if a.isDigit && b.isDigit && c.isDigit && d.isDigit then
      if 1 ≤ listToNat [a, b, c, d] then some (listToNat [a, b, c, d]) else none
    else none
  | _ => none

/-- `datetime_parse_item` from `stac_utils.py`; `Except.error` models a raised
exception escaping the function. -/
def datetime_parse_item (s : Option String) : Except Unit (Option PyDatetime) :=
  match s with
  | none => .ok none
  | some s =>
    if s.length = 8 then
      match strptimeYmd s.data with
      | some (y, m, d) => .ok (some ⟨y, m, d, 0, 0, 0, true⟩)
      | none => .error ()
    else if s.length = 4 then
      match strptimeY s.data with
      | some y => .ok (some ⟨y, 1, 1, 0, 0, 0, true⟩)
      | none => .error ()
    else .ok none

/-- The datetime-derivation fragment of `item_create.process_item`
(lines 71-78): returns the item timestamp and the `datetime_is_unknown` flag.
`date_extract_from_path` never returns an empty string, so Python's
truthiness test `if date_str:` coincides with the `Option` match. -/
def processItemTime (path : String) : Except Unit (Option PyDatetime × Bool) :=
  match date_extract_from_path path with
  | some ds =>
    match datetime_parse_item (some ds) with
    | .ok t => .ok (t, false)
    | .error e => .error e
  | none => .ok (some ⟨2000, 1, 1, 0, 0, 0, true⟩, true)

/-- A successful `strptimeYmd` parse always produces a valid calendar date. -/
theorem strptimeYmd_valid {l : List Char} {y m d : Nat}
    (h : strptimeYmd l = some (y, m, d)) : dateValid y m d = true := by
  unfold strptimeYmd at h
  split at h
  · split at h
    · split at h
      · split at h
        · next hg =>
          injection h with h'
          cases h'
          exact hg.2
        · exact absurd h (by simp)
      · exact absurd h (by simp)
    · exact absurd h (by simp)
  · exact absurd h (by simp)

/-- A successful `strptimeY` parse produces a positive year. -/
theorem strptimeY_pos {l : List Char} {y : Nat} (h : strptimeY l = some y) : 1 ≤ y := by
  unfold strptimeY at h
  split at h
  · split at h
    · split at h
      · next hg =>
        injection h with h'
        cases h'
        exact hg
      · exact absurd h (by simp)
    · exact absurd h (by simp)
  · exact absurd h (by simp)

/-- C4 counterexample: on the 8-digit token "20231345" (not a valid calendar
date) `datetime_parse_item` raises a `ValueError` rather than returning. -/
theorem datetime_parse_item_raises :
    datetime_parse_item (some "20231345") = .error () := by rfl

theorem char_eq_of_toNat {c : Char} (d : Char) (h : c.val.toNat = d.val.toNat) : c = d :=
  Char.ext (UInt32.toNat.inj h)

theorem digit_enum (c : Char) (h : c.isDigit = true) :
    c = '0' ∨ c = '1' ∨ c = '2' ∨ c = '3' ∨ c = '4' ∨
    c = '5' ∨ c = '6' ∨ c = '7' ∨ c = '8' ∨ c = '9' := by
  simp only [Char.isDigit, ge_iff_le, Bool.and_eq_true, decide_eq_true_eq] at h
  obtain ⟨h1, h2⟩ := h
  rw [UInt32.le_def, BitVec.le_def] at h1 h2
  have e48 : ((48 : UInt32)).toBitVec.toNat = 48 := rfl
  have e57 : ((57 : UInt32)).toBitVec.toNat = 57 := rfl
  rw [e48] at h1
  rw [e57] at h2
  have hd : c.val.toNat = 48 ∨ c.val.toNat = 49 ∨ c.val.toNat = 50 ∨ c.val.toNat = 51 ∨
      c.val.toNat = 52 ∨ c.val.toNat = 53 ∨ c.val.toNat = 54 ∨ c.val.toNat = 55 ∨
      c.val.toNat = 56 ∨ c.val.toNat = 57 := by
    unfold UInt32.toNat
    omega
  rcases hd with h | h | h | h | h | h | h | h | h | h
  · simp [char_eq_of_toNat '0' h]
  · simp [char_eq_of_toNat '1' h]
  · simp [char_eq_of_toNat '2' h]
  · simp [char_eq_of_toNat '3' h]
  · simp [char_eq_of_toNat '4' h]
  · simp [char_eq_of_toNat '5' h]
  · simp [char_eq_of_toNat '6' h]
  · simp [char_eq_of_toNat '7' h]
  · simp [char_eq_of_toNat '8' h]
  · simp [char_eq_of_toNat '9' h]

theorem digitVal_le_nine {c : Char} (h : c.isDigit = true) : digitVal c ≤ 9 := by
  rcases digit_enum c h with rfl | rfl | rfl | rfl | rfl | rfl | rfl | rfl | rfl | rfl <;> decide

theorem digit_eq_zero {c : Char} (h : c.isDigit = true) (h2 : digitVal c = 0) : c = '0' := by
  rcases digit_enum c h with rfl | rfl | rfl | rfl | rfl | rfl | rfl | rfl | rfl | rfl <;>
    revert h2 <;> decide

theorem digit_eq_one {c : Char} (h : c.isDigit = true) (h2 : digitVal c = 1) : c = '1' := by
  rcases digit_enum c h with rfl | rfl | rfl | rfl | rfl | rfl | rfl | rfl | rfl | rfl <;>
    revert h2 <;> decide

theorem digit_eq_three {c : Char} (h : c.isDigit = true) (h2 : digitVal c = 3) : c = '3' := by
  rcases digit_enum c h with rfl | rfl | rfl | rfl | rfl | rfl | rfl | rfl | rfl | rfl <;>
    revert h2 <;> decide

theorem digit_le_two_enum {c : Char} (h : c.isDigit = true) (h2 : digitVal c ≤ 2) :
    c = '0' ∨ c = '1' ∨ c = '2' := by
  rcases digit_enum c h with rfl | rfl | rfl | rfl | rfl | rfl | rfl | rfl | rfl | rfl <;>
    revert h2 <;> decide

theorem digit_one_two_enum {c : Char} (h : c.isDigit = true) (h2 : 1 ≤ digitVal c)
    (h3 : digitVal c ≤ 2) : c = '1' ∨ c = '2' := by
  rcases digit_enum c h with rfl | rfl | rfl | rfl | rfl | rfl | rfl | rfl | rfl | rfl <;>
    revert h2 h3 <;> decide

theorem digit_le_one_enum {c : Char} (h : c.isDigit = true) (h2 : digitVal c ≤ 1) :
    c = '0' ∨ c = '1' := by
  rcases digit_enum c h with rfl | rfl | rfl | rfl | rfl | rfl | rfl | rfl | rfl | rfl <;>
    revert h2 <;> decide

theorem digit_ge_one_le {c : Char} (h : c.isDigit = true) (h2 : 1 ≤ digitVal c) :
    '1' ≤ c ∧ c ≤ '9' := by
  rcases digit_enum c h with rfl | rfl | rfl | rfl | rfl | rfl | rfl | rfl | rfl | rfl <;>
    revert h2 <;> decide

theorem le_digit_facts {c : Char} (h : '1' ≤ c ∧ c ≤ '9') :
    c.isDigit = true ∧ 1 ≤ digitVal c := by
  obtain ⟨h1, h2⟩ := h
  have hdig : c.isDigit = true := by
    simp only [Char.isDigit, ge_iff_le, Bool.and_eq_true, decide_eq_true_eq]
    exact ⟨UInt32.le_trans (by decide) h1, UInt32.le_trans h2 (by decide)⟩
  refine ⟨hdig, ?_⟩
  have h1' := h1
  rw [show ((('1' : Char) ≤ c)) = (('1' : Char).val ≤ c.val) from rfl,
    UInt32.le_def, BitVec.le_def] at h1'
  have e49 : (('1' : Char).val).toBitVec.toNat = 49 := rfl
  rw [e49] at h1'
  unfold digitVal Char.toNat UInt32.toNat
  omega

theorem daysInMonth_le_31 (y m : Nat) : daysInMonth y m ≤ 31 := by
  unfold daysInMonth
  split
  · split <;> omega
  · split <;> omega

theorem dayAltRest_sound2 {a b : Char} {d : Nat} {lo : List Char}
    (hda : dayAlt.dayAltRest [a, b] = some (d, lo)) (hlo : lo = []) :
    a.isDigit = true ∧ b.isDigit = true ∧ d = 10 * digitVal a + digitVal b := by
  subst hlo
  have hstep : dayAlt.dayAltRest [a, b] =
      (if (a = '1' ∨ a = '2') ∧ b.isDigit = true then
         some (10 * digitVal a + digitVal b, ([] : List Char))
       else if a = '0' ∧ ('1' ≤ b ∧ b ≤ '9') then some (digitVal b, ([] : List Char))
       else if '1' ≤ a ∧ a ≤ '9' then some (digitVal a, [b]) else none) := rfl
  rw [hstep] at hda
  split at hda
  · next hc1 =>
    injection hda with hpair
    injection hpair with hd hlo2
    refine ⟨?_, hc1.2, hd.symm⟩
    rcases hc1.1 with rfl | rfl <;> decide
  · split at hda
    · next hc2 =>
      injection hda with hpair
      injection hpair with hd hlo2
      obtain ⟨rfl, hb⟩ := hc2
      have hbd := le_digit_facts hb
      refine ⟨by decide, hbd.1, ?_⟩
      have e0 : digitVal '0' = 0 := rfl
      omega
    · split at hda
      · next hc3 =>
        injection hda with hpair
        injection hpair with hd hlo2
        cases hlo2
      · cases hda

theorem dayAlt_sound2 {g h : Char} {d : Nat} {lo : List Char}
    (hda : dayAlt [g, h] = some (d, lo)) (hlo : lo = []) :
    g.isDigit = true ∧ h.isDigit = true ∧ d = 10 * digitVal g + digitVal h := by
  subst hlo
  unfold dayAlt at hda
  split at hda
  · next x r2 heq =>
    injection heq with hg heq'
    injection heq' with hx hr2
    subst hg
    subst hx
    subst hr2
    split at hda
    · next hor =>
      injection hda with hpair
      injection hpair with hd hlo2
      refine ⟨by decide, ?_, ?_⟩
      · rcases hor with rfl | rfl <;> decide
      · rcases hor with rfl | rfl <;> rw [← hd] <;> decide
    · exact dayAltRest_sound2 hda rfl
  · exact dayAltRest_sound2 hda rfl

theorem dayAltRest_sound3 {x y z : Char} {d : Nat} {lo : List Char}
    (hda : dayAlt.dayAltRest [x, y, z] = some (d, lo)) : lo ≠ [] := by
  have hstep : dayAlt.dayAltRest [x, y, z] =
      (if (x = '1' ∨ x = '2') ∧ y.isDigit = true then
         some (10 * digitVal x + digitVal y, [z])
       else if x = '0' ∧ ('1' ≤ y ∧ y ≤ '9') then some (digitVal y, [z])
       else if '1' ≤ x ∧ x ≤ '9' then some (digitVal x, [y, z]) else none) := rfl
  rw [hstep] at hda
  split at hda
  · injection hda with hpair
    injection hpair with hd hlo2
    rw [← hlo2]
    simp
  · split at hda
    · injection hda with hpair
      injection hpair with hd hlo2
      rw [← hlo2]
      simp
    · split at hda
      · injection hda with hpair
        injection hpair with hd hlo2
        rw [← hlo2]
        simp
      · cases hda

theorem dayAlt_sound3 {x y z : Char} {d : Nat} {lo : List Char}
    (hda : dayAlt [x, y, z] = some (d, lo)) : lo ≠ [] := by
  unfold dayAlt at hda
  split at hda
  · next x' r2 heq =>
    injection heq with hg heq'
    injection heq' with hx hr2
    subst hg
    subst hx
    subst hr2
    split at hda
    · injection hda with hpair
      injection hpair with hd hlo2
      rw [← hlo2]
      simp
    · exact dayAltRest_sound3 hda
  · exact dayAltRest_sound3 hda

theorem dayAlt_complete {g h : Char} (hg : g.isDigit = true) (hh : h.isDigit = true)
    (h1 : 1 ≤ 10 * digitVal g + digitVal h) (h31 : 10 * digitVal g + digitVal h ≤ 31) :
    dayAlt [g, h] = some (10 * digitVal g + digitVal h, []) := by
  have hg9 := digitVal_le_nine hg
  have hh9 := digitVal_le_nine hh
  by_cases hc3 : digitVal g = 3
  · have hg3 : g = '3' := digit_eq_three hg hc3
    subst hg3
    have e3 : digitVal '3' = 3 := rfl
    have hh1 : digitVal h ≤ 1 := by omega
    have hor := digit_le_one_enum hh hh1
    have hstep : dayAlt ['3', h] =
        (if h = '0' ∨ h = '1' then some (30 + digitVal h, ([] : List Char))
         else dayAlt.dayAltRest ['3', h]) := rfl
    rw [hstep, if_pos hor, e3]
  · by_cases hc12 : 1 ≤ digitVal g ∧ digitVal g ≤ 2
    · rcases digit_one_two_enum hg hc12.1 hc12.2 with rfl | rfl
      · have hstep : dayAlt ['1', h] =
            (if (('1' : Char) = '1' ∨ ('1' : Char) = '2') ∧ h.isDigit = true then
               some (10 * digitVal '1' + digitVal h, ([] : List Char))
             else if ('1' : Char) = '0' ∧ ('1' ≤ h ∧ h ≤ '9') then
               some (digitVal h, ([] : List Char))
             else if '1' ≤ ('1' : Char) ∧ ('1' : Char) ≤ '9' then
               some (digitVal '1', [h]) else none) := rfl
        rw [hstep, if_pos ⟨Or.inl rfl, hh⟩]
      · have hstep : dayAlt ['2', h] =
            (if (('2' : Char) = '1' ∨ ('2' : Char) = '2') ∧ h.isDigit = true then
               some (10 * digitVal '2' + digitVal h, ([] : List Char))
             else if ('2' : Char) = '0' ∧ ('1' ≤ h ∧ h ≤ '9') then
               some (digitVal h, ([] : List Char))
             else if '1' ≤ ('2' : Char) ∧ ('2' : Char) ≤ '9' then
               some (digitVal '2', [h]) else none) := rfl
        rw [hstep, if_pos ⟨Or.inr rfl, hh⟩]
    · push_neg at hc12
      have hg0 : digitVal g = 0 := by
        by_cases hz : 1 ≤ digitVal g
        · have := hc12 hz
          omega
        · omega
      have hgz : g = '0' := digit_eq_zero hg hg0
      subst hgz
      have e0 : digitVal '0' = 0 := rfl
      have hh1 : 1 ≤ digitVal h := by omega
      have hbh := digit_ge_one_le hh hh1
      have hstep : dayAlt ['0', h] =
          (if (('0' : Char) = '1' ∨ ('0' : Char) = '2') ∧ h.isDigit = true then
             some (10 * digitVal '0' + digitVal h, ([] : List Char))
           else if ('0' : Char) = '0' ∧ ('1' ≤ h ∧ h ≤ '9') then
             some (digitVal h, ([] : List Char))
           else if '1' ≤ ('0' : Char) ∧ ('0' : Char) ≤ '9' then
             some (digitVal '0', [h]) else none) := rfl
      rw [hstep, if_neg (by rintro ⟨h3 | h3, -⟩ <;> exact absurd h3 (by decide)),
        if_pos ⟨rfl, hbh⟩, e0]
      norm_num

theorem monthDayOne_sound {e f g h : Char} {m d : Nat}
    (hm : monthDay.monthDayOne [e, f, g, h] = some (m, d, [])) : False := by
  have hstep : monthDay.monthDayOne [e, f, g, h] =
      (if '1' ≤ e ∧ e ≤ '9' then
         match dayAlt [f, g, h] with
         | some (d, lo) => some (digitVal e, d, lo)
         | none => none
       else none) := rfl
  rw [hstep] at hm
  split at hm
  · split at hm
    · next d' lo' heq =>
      injection hm with hp
      injection hp with hv1 hp2
      injection hp2 with hv2 hv3
      exact dayAlt_sound3 heq hv3
    · cases hm
  · cases hm

theorem monthDayRest_sound {e f g h : Char} {m d : Nat}
    (hm : monthDay.monthDayRest [e, f, g, h] = some (m, d, [])) :
    e.isDigit = true ∧ f.isDigit = true ∧ g.isDigit = true ∧ h.isDigit = true ∧
      m = 10 * digitVal e + digitVal f ∧ d = 10 * digitVal g + digitVal h := by
  unfold monthDay.monthDayRest at hm
  split at hm
  · next x r heq =>
    injection heq with h1 heq'
    injection heq' with h2 h3
    subst h1
    subst h2
    subst h3
    split at hm
    · next hc =>
      split at hm
      · next d' lo' heq2 =>
        injection hm with hp
        injection hp with hv1 hp2
        injection hp2 with hv2 hv3
        subst hv3
        have hd2 := dayAlt_sound2 heq2 rfl
        refine ⟨by decide, (le_digit_facts hc).1, hd2.1, hd2.2.1, ?_, ?_⟩
        · rw [← hv1]
          have e0 : digitVal '0' = 0 := rfl
          omega
        · rw [← hv2]
          exact hd2.2.2
      · exact (monthDayOne_sound hm).elim
    · exact (monthDayOne_sound hm).elim
  · exact (monthDayOne_sound hm).elim

theorem monthDay_sound {e f g h : Char} {m d : Nat}
    (hm : monthDay [e, f, g, h] = some (m, d, [])) :
    e.isDigit = true ∧ f.isDigit = true ∧ g.isDigit = true ∧ h.isDigit = true ∧
      m = 10 * digitVal e + digitVal f ∧ d = 10 * digitVal g + digitVal h := by
  unfold monthDay at hm
  split at hm
  · next x r heq =>
    injection heq with h1 heq'
    injection heq' with h2 h3
    subst h1
    subst h2
    subst h3
    split at hm
    · next hc =>
      split at hm
      · next d' lo' heq2 =>
        injection hm with hp
        injection hp with hv1 hp2
        injection hp2 with hv2 hv3
        subst hv3
        have hd2 := dayAlt_sound2 heq2 rfl
        refine ⟨by decide, ?_, hd2.1, hd2.2.1, ?_, ?_⟩
        · rcases hc with rfl | rfl | rfl <;> decide
        · rw [← hv1]
          have e1 : digitVal '1' = 1 := rfl
          omega
        · rw [← hv2]
          exact hd2.2.2
      · exact monthDayRest_sound hm
    · exact monthDayRest_sound hm
  · exact monthDayRest_sound hm

theorem monthDay_complete {e f g h : Char} {D : Nat}
    (he : e.isDigit = true) (hf : f.isDigit = true)
    (hm1 : 1 ≤ 10 * digitVal e + digitVal f) (hm12 : 10 * digitVal e + digitVal f ≤ 12)
    (hday : dayAlt [g, h] = some (D, [])) :
    monthDay [e, f, g, h] = some (10 * digitVal e + digitVal f, D, []) := by
  have hf9 := digitVal_le_nine hf
  have he9 := digitVal_le_nine he
  have he1 : digitVal e ≤ 1 := by omega
  by_cases hce : digitVal e = 1
  · have he' : e = '1' := digit_eq_one he hce
    subst he'
    have e1 : digitVal '1' = 1 := rfl
    have hf2 : digitVal f ≤ 2 := by omega
    have hor := digit_le_two_enum hf hf2
    have hstep : monthDay ['1', f, g, h] =
        (if f = '0' ∨ f = '1' ∨ f = '2' then
           (match dayAlt [g, h] with
            | some (d, lo) => some (10 + digitVal f, d, lo)
            | none => monthDay.monthDayRest ['1', f, g, h])
         else monthDay.monthDayRest ['1', f, g, h]) := rfl
    rw [hstep, if_pos hor, hday]
    norm_num [e1]
  · have hce0 : digitVal e = 0 := by omega
    have he' : e = '0' := digit_eq_zero he hce0
    subst he'
    have e0 : digitVal '0' = 0 := rfl
    have hf1 : 1 ≤ digitVal f := by omega
    have hbf := digit_ge_one_le hf hf1
    have hstep : monthDay ['0', f, g, h] =
        (if '1' ≤ f ∧ f ≤ '9' then
           (match dayAlt [g, h] with
            | some (d, lo) => some (digitVal f, d, lo)
            | none => monthDay.monthDayOne ['0', f, g, h])
         else monthDay.monthDayOne ['0', f, g, h]) := rfl
    rw [hstep, if_pos hbf, hday]
    norm_num [e0]

theorem listToNat_two (a b : Char) : listToNat [a, b] = 10 * digitVal a + digitVal b := by
  unfold listToNat digitVal
  simp only [List.foldl]
  omega

theorem strptimeYmd_characterization (a b c d e f g h : Char) :
    strptimeYmd [a, b, c, d, e, f, g, h] =
      (if [a, b, c, d, e, f, g, h].all Char.isDigit = true ∧
          dateValid (listToNat [a, b, c, d]) (listToNat [e, f]) (listToNat [g, h]) = true
       then some (listToNat [a, b, c, d], listToNat [e, f], listToNat [g, h])
       else none) := by
  have hstep : strptimeYmd [a, b, c, d, e, f, g, h] =
      (if (a.isDigit && b.isDigit && c.isDigit && d.isDigit) = true then
         match monthDay [e, f, g, h] with
         | some (m, dd, leftover) =>
           if leftover = [] ∧ dateValid (listToNat [a, b, c, d]) m dd = true then
             some (listToNat [a, b, c, d], m, dd)
           else none
         | none => none
       else none) := rfl
  rw [hstep]
  by_cases hcond : [a, b, c, d, e, f, g, h].all Char.isDigit = true ∧
      dateValid (listToNat [a, b, c, d]) (listToNat [e, f]) (listToNat [g, h]) = true
  · rw [if_pos hcond]
    obtain ⟨hall, hval⟩ := hcond
    simp only [List.all_cons, List.all_nil, Bool.and_eq_true, Bool.and_true] at hall
    obtain ⟨ha, hb, hc, hd, he, hf, hg, hh⟩ := hall
    rw [if_pos (by simp [ha, hb, hc, hd])]
    have hvx := hval
    simp only [dateValid, Bool.and_eq_true, decide_eq_true_eq] at hvx
    obtain ⟨⟨⟨⟨⟨hv1, hv2⟩, hv3⟩, hv4⟩, hv5⟩, hv6⟩ := hvx
    have hd31 : listToNat [g, h] ≤ 31 := le_trans hv6 (daysInMonth_le_31 _ _)
    rw [listToNat_two] at hv5 hd31
    rw [listToNat_two] at hv3 hv4
    have hdayc := dayAlt_complete hg hh hv5 hd31
    have hmc := monthDay_complete he hf hv3 hv4 hdayc
    have hmc' : monthDay [e, f, g, h] = some (listToNat [e, f], listToNat [g, h], []) := by
      rw [listToNat_two, listToNat_two]
      exact hmc
    rw [hmc']
    rw [show (match some (listToNat [e, f], listToNat [g, h], ([] : List Char)) with
        | some (m, dd, leftover) =>
          if leftover = [] ∧ dateValid (listToNat [a, b, c, d]) m dd = true then
            some (listToNat [a, b, c, d], m, dd)
          else none
        | none => none) =
      (if ([] : List Char) = [] ∧
          dateValid (listToNat [a, b, c, d]) (listToNat [e, f]) (listToNat [g, h]) = true then
        some (listToNat [a, b, c, d], listToNat [e, f], listToNat [g, h])
      else none) from rfl]
    rw [if_pos ⟨rfl, hval⟩]
  · rw [if_neg hcond]
    by_cases hdig4 : (a.isDigit && b.isDigit && c.isDigit && d.isDigit) = true
    · rw [if_pos hdig4]
      cases hmd : monthDay [e, f, g, h] with
      | none => rfl
      | some t =>
        obtain ⟨m, dd, lo⟩ := t
        by_cases hok : lo = [] ∧ dateValid (listToNat [a, b, c, d]) m dd = true
        · exfalso
          obtain ⟨hlo, hdv⟩ := hok
          subst hlo
          have hs := monthDay_sound hmd
          apply hcond
          constructor
          · simp only [List.all_cons, List.all_nil, Bool.and_eq_true, Bool.and_true]
            simp only [Bool.and_eq_true] at hdig4
            exact ⟨hdig4.1.1.1, hdig4.1.1.2, hdig4.1.2, hdig4.2,
              hs.1, hs.2.1, hs.2.2.1, hs.2.2.2.1⟩
          · rw [listToNat_two, listToNat_two, ← hs.2.2.2.2.1, ← hs.2.2.2.2.2]
            exact hdv
        · rw [show (match some (m, dd, lo) with
              | some (m, dd, leftover) =>
                if leftover = [] ∧ dateValid (listToNat [a, b, c, d]) m dd = true then
                  some (listToNat [a, b, c, d], m, dd)
                else none
              | none => none) =
            (if lo = [] ∧ dateValid (listToNat [a, b, c, d]) m dd = true then
              some (listToNat [a, b, c, d], m, dd)
            else none) from rfl]
          rw [if_neg hok]
    · rw [if_neg hdig4]

theorem strptimeY_characterization (a b c d : Char) :
    strptimeY [a, b, c, d] =
      (if [a, b, c, d].all Char.isDigit = true ∧ 1 ≤ listToNat [a, b, c, d]
       then some (listToNat [a, b, c, d]) else none) := by
  have hstep : strptimeY [a, b, c, d] =
      (if (a.isDigit && b.isDigit && c.isDigit && d.isDigit) = true then
         if 1 ≤ listToNat [a, b, c, d] then some (listToNat [a, b, c, d]) else none
       else none) := rfl
  rw [hstep]
  by_cases h1 : (a.isDigit && b.isDigit && c.isDigit && d.isDigit) = true
  · rw [if_pos h1]
    have hall : [a, b, c, d].all Char.isDigit = true := by
      simp only [Bool.and_eq_true] at h1
      simp [h1.1.1.1, h1.1.1.2, h1.1.2, h1.2]
    by_cases h2 : 1 ≤ listToNat [a, b, c, d]
    · rw [if_pos h2, if_pos ⟨hall, h2⟩]
    · rw [if_neg h2, if_neg (by rintro ⟨-, hx⟩; exact h2 hx)]
  · rw [if_neg h1]
    rw [if_neg ?hng]
    case hng =>
      rintro ⟨hall, -⟩
      apply h1
      simp only [List.all_cons, List.all_nil, Bool.and_eq_true, Bool.and_true] at hall
      simp [hall.1, hall.2.1, hall.2.2.1, hall.2.2.2]

theorem exists_eight (l : List Char) (hl : l.length = 8) :
    ∃ a b c d e f g h, l = [a, b, c, d, e, f, g, h] := by
  rcases l with _ | ⟨a, l⟩
  · simp only [List.length_nil] at hl
    omega
  rcases l with _ | ⟨b, l⟩
  · simp only [List.length_cons, List.length_nil] at hl
    omega
  rcases l with _ | ⟨c, l⟩
  · simp only [List.length_cons, List.length_nil] at hl
    omega
  rcases l with _ | ⟨d, l⟩
  · simp only [List.length_cons, List.length_nil] at hl
    omega
  rcases l with _ | ⟨e, l⟩
  · simp only [List.length_cons, List.length_nil] at hl
    omega
  rcases l with _ | ⟨f, l⟩
  · simp only [List.length_cons, List.length_nil] at hl
    omega
  rcases l with _ | ⟨g, l⟩
  · simp only [List.length_cons, List.length_nil] at hl
    omega
  rcases l with _ | ⟨h, l⟩
  · simp only [List.length_cons, List.length_nil] at hl
    omega
  rcases l with _ | ⟨x, l⟩
  · exact ⟨a, b, c, d, e, f, g, h, rfl⟩
  · simp only [List.length_cons, List.length_nil] at hl
    omega

theorem exists_four (l : List Char) (hl : l.length = 4) :
    ∃ a b c d, l = [a, b, c, d] := by
  rcases l with _ | ⟨a, l⟩
  · simp only [List.length_nil] at hl
    omega
  rcases l with _ | ⟨b, l⟩
  · simp only [List.length_cons, List.length_nil] at hl
    omega
  rcases l with _ | ⟨c, l⟩
  · simp only [List.length_cons, List.length_nil] at hl
    omega
  rcases l with _ | ⟨d, l⟩
  · simp only [List.length_cons, List.length_nil] at hl
    omega
  rcases l with _ | ⟨x, l⟩
  · exact ⟨a, b, c, d, rfl⟩
  · simp only [List.length_cons, List.length_nil] at hl
    omega

/-- C4 amended: `datetime_parse_item` returns `None` without raising for
`None` and for strings whose length is neither 4 nor 8; on a length-8 input it
raises exactly when the string is not all digits spelling a valid calendar
date `YYYYMMDD`, and otherwise returns precisely that date at midnight UTC;
on a length-4 input it raises exactly when the string is not all digits with
value at least 1, and otherwise returns January 1 of precisely that year,
UTC. -/
theorem datetime_parse_item_amended :
    (datetime_parse_item none = .ok none) ∧
    (∀ s : String, s.length ≠ 4 → s.length ≠ 8 → datetime_parse_item (some s) = .ok none) ∧
    (∀ s : String, s.length = 8 →
      datetime_parse_item (some s) =
        (if s.data.all Char.isDigit = true ∧
            dateValid (listToNat (s.data.take 4)) (listToNat ((s.data.drop 4).take 2))
              (listToNat (s.data.drop 6)) = true
         then .ok (some ⟨listToNat (s.data.take 4), listToNat ((s.data.drop 4).take 2),
                         listToNat (s.data.drop 6), 0, 0, 0, true⟩)
         else .error ())) ∧
    (∀ s : String, s.length = 4 →
      datetime_parse_item (some s) =
        (if s.data.all Char.isDigit = true ∧ 1 ≤ listToNat s.data
         then .ok (some ⟨listToNat s.data, 1, 1, 0, 0, 0, true⟩)
         else .error ())) := by
  refine ⟨rfl, ?_, ?_, ?_⟩
  · intro s h4 h8
    simp [datetime_parse_item, h4, h8]
  · intro s h8
    obtain ⟨a, b, c, d, e, f, g, h, hdata⟩ := exists_eight s.data h8
    have hstep : datetime_parse_item (some s) =
        (if s.length = 8 then
           match strptimeYmd s.data with
           | some (y, m, d) => .ok (some ⟨y, m, d, 0, 0, 0, true⟩)
           | none => .error ()
         else if s.length = 4 then
           match strptimeY s.data with
           | some y => .ok (some ⟨y, 1, 1, 0, 0, 0, true⟩)
           | none => .error ()
         else .ok none) := rfl
    have ht4 : s.data.take 4 = [a, b, c, d] := by rw [hdata]; exact rfl
    have ht46 : (s.data.drop 4).take 2 = [e, f] := by rw [hdata]; exact rfl
    have ht6 : s.data.drop 6 = [g, h] := by rw [hdata]; exact rfl
    have hallc : s.data.all Char.isDigit = [a, b, c, d, e, f, g, h].all Char.isDigit := by
      rw [hdata]
    rw [hstep, if_pos h8, ht4, ht46, ht6, hallc, hdata, strptimeYmd_characterization]
    by_cases hc : [a, b, c, d, e, f, g, h].all Char.isDigit = true ∧
        dateValid (listToNat [a, b, c, d]) (listToNat [e, f]) (listToNat [g, h]) = true
    · rw [if_pos hc, if_pos hc]
    · rw [if_neg hc, if_neg hc]
  · intro s h4
    have h8 : s.length ≠ 8 := by omega
    obtain ⟨a, b, c, d, hdata⟩ := exists_four s.data h4
    have hstep : datetime_parse_item (some s) =
        (if s.length = 8 then
           match strptimeYmd s.data with
           | some (y, m, d) => .ok (some ⟨y, m, d, 0, 0, 0, true⟩)
           | none => .error ()
         else if s.length = 4 then
           match strptimeY s.data with
           | some y => .ok (some ⟨y, 1, 1, 0, 0, 0, true⟩)
           | none => .error ()
         else .ok none) := rfl
    rw [hstep, if_neg h8, if_pos h4, hdata, strptimeY_characterization]
    by_cases hc : [a, b, c, d].all Char.isDigit = true ∧ 1 ≤ listToNat [a, b, c, d]
    · rw [if_pos hc, if_pos hc]
    · rw [if_neg hc, if_neg hc]

/-- Witness for C4 amended: a 5-digit token returns `None`; "20230415" parses
to exactly 2023-04-15 midnight UTC; "2023" to exactly 2023-01-01 UTC; the
invalid calendar date "20230230" raises. -/
theorem datetime_parse_item_amended_witness :
    datetime_parse_item (some "20231") = .ok none ∧
    datetime_parse_item (some "20230415") = .ok (some ⟨2023, 4, 15, 0, 0, 0, true⟩) ∧
    datetime_parse_item (some "2023") = .ok (some ⟨2023, 1, 1, 0, 0, 0, true⟩) ∧
    datetime_parse_item (some "20230230") = .error () :=
  ⟨datetime_parse_item_amended.2.1 "20231" (by decide) (by decide),
   (datetime_parse_item_amended.2.2.1 "20230415" (by decide)).trans (by rfl),
   (datetime_parse_item_amended.2.2.2 "2023" (by decide)).trans (by rfl),
   (datetime_parse_item_amended.2.2.1 "20230230" (by decide)).trans (by rfl)⟩

/-- C3: on the path "dem_utm10_20231.tif" the extracted token after `_utm10_`
has five digits with leading year 2023; `date_extract_from_path` returns it,
`datetime_parse_item` yields `None`, so `process_item` produces timestamp
`None` with `datetime_is_unknown = False` — not the epoch placeholder with
the flag set that the spec requires. -/
theorem five_digit_token_not_placeholder :
    date_extract_from_path "dem_utm10_20231.tif" = some "20231" ∧
    processItemTime "dem_utm10_20231.tif" = .ok (none, false) := by
  constructor
  · decide
  · rfl

/-- Helper predicate: a boolean holding of the value inside an `Option`. -/
def optionAll {α : Type} (p : α → Bool) : Option α → Bool
  | none => true
  | some a => p a

/-- C8: if every candidate date token of a path (the `_utmXX_` capture and the
`/YYYY/` capture, where present) yields year 1999 or year 2051, then
`date_extract_from_path` finds no date, so derivation falls through to the
epoch placeholder with the inferred flag set. -/
theorem date_extract_year_boundary (s : String)
    (h1 : optionAll (fun v => year4 v == 1999 || year4 v == 2051) (searchUtm s.data) = true)
    (h2 : optionAll (fun v => listToNat v == 1999 || listToNat v == 2051)
      (searchFallback s.data) = true) :
    date_extract_from_path s = none := by
  have hfb : fallbackCase s = none := by
    unfold fallbackCase
    cases hf : searchFallback s.data with
    | none => rfl
    | some cap =>
      rw [hf] at h2
      simp only [optionAll, Bool.or_eq_true, beq_iff_eq] at h2
      dsimp only
      rcases h2 with h | h <;> rw [h] <;> rw [if_neg (by omega)]
  unfold date_extract_from_path
  cases hu : searchUtm s.data with
  | none => exact hfb
  | some val =>
    rw [hu] at h1
    simp only [optionAll, Bool.or_eq_true, beq_iff_eq] at h1
    dsimp only
    by_cases hd : val.all Char.isDigit = true
    · rw [if_pos hd]
      rcases h1 with h | h <;> rw [h] <;> rw [if_neg (by omega)] <;> exact hfb
    · rw [if_neg hd]
      exact hfb

/-- Witness for C8: a path whose `_utm` token gives 1999 and whose `/YYYY/`
token gives 2051 extracts no date. -/
theorem date_extract_year_boundary_witness :
    date_extract_from_path "/a/2051/b_utm9_19990101.tif" = none :=
  date_extract_year_boundary "/a/2051/b_utm9_19990101.tif" (by decide) (by decide)

/-! ### GeoTIFF / COG validation (`check_geotiff_cog`) -/

/-- Substring occurrence: `needle` occurs contiguously in the haystack. -/
def containsL (needle : List Char) : List Char → Bool
  | [] => needle.isPrefixOf ([] : List Char)
  | c :: t => needle.isPrefixOf (c :: t) || containsL needle t

/-- Python `needle in haystack` on strings. -/
def pyContains (hay needle : String) : Bool := containsL needle.data hay.data

/-- The record built by `check_geotiff_cog`. -/
structure CogCheck where
  url : String
  is_geotiff : Bool
  is_cog : Bool
deriving DecidableEq, Repr

/-- The output classification of `check_geotiff_cog` in `stac_utils.py`:
`output` is the combined stdout+stderr of `rio cogeo validate`. -/
def check_geotiff_cog (url output : String) : CogCheck :=
  { url := url
    is_geotiff :=
      pyContains output "is NOT a valid cloud optimized GeoTIFF" ||
      pyContains output "is a valid cloud optimized GeoTIFF"
    is_cog := pyContains output "is a valid cloud optimized GeoTIFF" }

/-- C9: for every validator output, a URL classified as cloud-optimized is
also classified as a readable GeoTIFF: `is_cog` implies `is_geotiff`. -/
theorem check_geotiff_cog_is_cog_implies_is_geotiff (url output : String)
    (h : (check_geotiff_cog url output).is_cog = true) :
    (check_geotiff_cog url output).is_geotiff = true := by
  simp only [check_geotiff_cog] at h ⊢
  rw [h, Bool.or_true]

/-- Witness for C9 on a concrete validator output. -/
theorem check_geotiff_cog_is_cog_implies_is_geotiff_witness :
    (check_geotiff_cog "u" "x.tif is a valid cloud optimized GeoTIFF").is_geotiff = true :=
  check_geotiff_cog_is_cog_implies_is_geotiff "u"
    "x.tif is a valid cloud optimized GeoTIFF" (by decide)

/-! ### Validation cache (`load_validation_cache`)

Models the cache-classification and merge logic of
`item_create.load_validation_cache`.  A CSV row becomes a `CacheRow` with
`Option` fields for the spatial columns (`none` models a NaN / missing
value); `transformCol` models whether the existing CSV has the `transform`
column at all.  The extraction function `geotiff_extract_metadata` is not
part of the sources; it is passed as a parameter, constrained only by the
spec's interface (a record keyed by the requested URL). -/

/-- A row of `data/stac_geotiff_checks.csv`. -/
structure CacheRow where
  url : String
  is_geotiff : Bool
  is_cog : Bool
  epsg : Option Int
  height : Option Int
  width : Option Int
  transform : Option String
  bounds : Option String
deriving DecidableEq, Repr

/-- `existing_urls = set(df_existing["url"])`. -/
def existing_urls (rows : List CacheRow) : List String := rows.map (fun r => r.url)

/-- The `needs_upgrade` set: readable rows whose `transform` is NaN when the
column exists, or every readable row when the CSV predates the column. -/
def needs_upgrade (transformCol : Bool) (rows : List CacheRow) : List String :=
  if transformCol then
    (rows.filter (fun r => r.is_geotiff && r.transform.isNone)).map (fun r => r.url)
  else
    (rows.filter (fun r => r.is_geotiff)).map (fun r => r.url)

/-- `urls_to_validate = [url for url in urls_to_check
                         if url not in existing_urls or url in needs_upgrade]`. -/
def urls_to_validate (transformCol : Bool) (rows : List CacheRow)
    (urls_to_check : List String) : List String :=
  urls_to_check.filter (fun u =>
    !((existing_urls rows).contains u) || (needs_upgrade transformCol rows).contains u)

/-- `urls_upgrading = needs_upgrade & set(urls_to_validate)`. -/
def urls_upgrading (transformCol : Bool) (rows : List CacheRow)
    (tc : List String) : List String :=
  (needs_upgrade transformCol rows).filter
    (fun u => (urls_to_validate transformCol rows tc).contains u)

/-- The merged table written back to the store: existing rows minus the
upgrading ones, followed by the freshly extracted rows
(`df_all = pd.concat([df_existing, df_new])`). -/
def merge_cache (transformCol : Bool) (rows : List CacheRow) (tc : List String)
    (extract : String → CacheRow) : List CacheRow :=
  (rows.filter (fun r => !((urls_upgrading transformCol rows tc).contains r.url))) ++
    (urls_to_validate transformCol rows tc).map extract

/-- A requested URL is classified as needing extraction when it lands in
`urls_to_validate`. -/
def code_needs_extraction (transformCol : Bool) (rows : List CacheRow)
    (tc : List String) (u : String) : Bool :=
  (urls_to_validate transformCol rows tc).contains u

/-- The spec's up-to-date criterion, stated from the spec's words: a record
exists and (`is_readable` is false OR the metadata fields `epsg`, `height`,
`width`, `transform`, `bounds` are ALL present). -/
def spec_up_to_date (rows : List CacheRow) (u : String) : Bool :=
  rows.any (fun r => r.url == u &&
    (!r.is_geotiff ||
      (r.epsg.isSome && r.height.isSome && r.width.isSome &&
       r.transform.isSome && r.bounds.isSome)))

/-- A readable row carrying `transform` but no CRS (`epsg` NaN): real shape
produced by extraction of a GeoTIFF without CRS. -/
def rowNoCrs : CacheRow :=
  { url := "https://nrs.objectstore.gov.bc.ca/gdwuts/a.tif"
    is_geotiff := true, is_cog := false
    epsg := none, height := some 100, width := some 100
    transform := some "t", bounds := none }

/-- C2 counterexample: for a readable cached row with `transform` present but
`epsg` missing, the code classifies the URL as up-to-date (not in
`urls_to_validate`) although the spec's all-fields-present criterion fails,
so the claimed biconditional is false. -/
theorem cache_classification_counterexample :
    ¬((code_needs_extraction true [rowNoCrs] [rowNoCrs.url] rowNoCrs.url = false) ↔
      (spec_up_to_date [rowNoCrs] rowNoCrs.url = true)) := by decide

/-- `l.contains u` agrees with list membership for strings. -/
theorem contains_iff_mem_str {l : List String} {u : String} :
    l.contains u = true ↔ u ∈ l := by
  induction l with
  | nil => simp [List.contains]
  | cons a t ih =>
    simp [List.contains] at ih ⊢

/-- C2 amended: a requested URL is up-to-date (kept out of `urls_to_validate`)
iff a cache row for it exists and (`is_geotiff` is false OR (the cache file
has the `transform` column AND the row's `transform` field is present)):
`transform` alone is the upgrade sentinel when the column exists (rows with
`transform` present but other spatial fields missing are not re-extracted),
and when the cache file predates the `transform` column every readable row is
re-extracted. -/
theorem cache_up_to_date_iff (transformCol : Bool) (rows : List CacheRow)
    (tc : List String) (u : String)
    (hmem : u ∈ tc) (hnd : (rows.map (fun r => r.url)).Nodup) :
    code_needs_extraction transformCol rows tc u = false ↔
      rows.any (fun r => r.url == u &&
        (!r.is_geotiff || (transformCol && r.transform.isSome))) = true := by
  have hval : code_needs_extraction transformCol rows tc u = false ↔
      ((existing_urls rows).contains u = true ∧
        (needs_upgrade transformCol rows).contains u = false) := by
    unfold code_needs_extraction urls_to_validate
    rw [Bool.eq_false_iff]
    rw [Ne, contains_iff_mem_str]
    simp only [List.mem_filter, Bool.or_eq_true, Bool.not_eq_true']
    constructor
    · intro h
      rcases Bool.eq_false_or_eq_true ((existing_urls rows).contains u) with he | he
      · refine ⟨he, ?_⟩
        rcases Bool.eq_false_or_eq_true ((needs_upgrade transformCol rows).contains u) with hn | hn
        · exact absurd ⟨hmem, Or.inr hn⟩ h
        · exact hn
      · exact absurd ⟨hmem, Or.inl he⟩ h
    · rintro ⟨he, hn⟩ ⟨-, h | h⟩
      · rw [he] at h; cases h
      · rw [hn] at h; cases h
  rw [hval, contains_iff_mem_str, Bool.eq_false_iff, Ne, contains_iff_mem_str]
  cases transformCol with
  | false =>
    have hnu : needs_upgrade false rows =
        (rows.filter (fun r => r.is_geotiff)).map (fun r => r.url) := by
      simp [needs_upgrade]
    rw [hnu]
    unfold existing_urls
    simp only [List.mem_map, List.mem_filter, List.any_eq_true,
      Bool.and_eq_true, beq_iff_eq, Bool.or_eq_true, Bool.not_eq_true',
      Bool.false_and, Bool.or_false]
    constructor
    · rintro ⟨⟨r, hr, hru⟩, hnu2⟩
      refine ⟨r, hr, hru, ?_⟩
      rcases Bool.eq_false_or_eq_true r.is_geotiff with hg | hg
      · exact absurd ⟨r, ⟨hr, hg⟩, hru⟩ hnu2
      · exact hg
    · rintro ⟨r, hr, hru, hg⟩
      refine ⟨⟨r, hr, hru⟩, ?_⟩
      rintro ⟨r', ⟨hr', hg'⟩, hru'⟩
      have hrr : r' = r := List.inj_on_of_nodup_map hnd hr' hr (hru'.trans hru.symm)
      rw [hrr, hg] at hg'
      cases hg'
  | true =>
    have hnu : needs_upgrade true rows =
        (rows.filter (fun r => r.is_geotiff && r.transform.isNone)).map (fun r => r.url) := by
      simp [needs_upgrade]
    rw [hnu]
    unfold existing_urls
    simp only [List.mem_map, List.mem_filter, List.any_eq_true,
      Bool.and_eq_true, beq_iff_eq, Bool.or_eq_true, Bool.not_eq_true',
      Bool.true_and, Option.isSome_iff_exists, Option.isNone_iff_eq_none]
    constructor
    · rintro ⟨⟨r, hr, hru⟩, hnu2⟩
      refine ⟨r, hr, hru, ?_⟩
      rcases Bool.eq_false_or_eq_true r.is_geotiff with hg | hg
      · rcases ht : r.transform with _ | t
        · exact absurd ⟨r, ⟨hr, hg, ht⟩, hru⟩ hnu2
        · exact Or.inr ⟨t, rfl⟩
      · exact Or.inl hg
    · rintro ⟨r, hr, hru, hcond⟩
      refine ⟨⟨r, hr, hru⟩, ?_⟩
      rintro ⟨r', ⟨hr', hg', ht'⟩, hru'⟩
      have hrr : r' = r := List.inj_on_of_nodup_map hnd hr' hr (hru'.trans hru.symm)
      rw [hrr] at hg' ht'
      rcases hcond with hg | ⟨t, ht⟩
      · rw [hg] at hg'; cases hg'
      · rw [ht] at ht'; cases ht'

/-- Witness for C2 amended, both branches: with the `transform` column, the
readable no-CRS row with `transform` present is up-to-date; without the
column, the same readable row needs extraction. -/
theorem cache_up_to_date_iff_witness :
    code_needs_extraction true [rowNoCrs] [rowNoCrs.url] rowNoCrs.url = false ∧
    code_needs_extraction false [rowNoCrs] [rowNoCrs.url] rowNoCrs.url = true := by
  constructor
  · exact (cache_up_to_date_iff true [rowNoCrs] [rowNoCrs.url] rowNoCrs.url
      (by decide) (by decide)).mpr (by decide)
  · have h := cache_up_to_date_iff false [rowNoCrs] [rowNoCrs.url] rowNoCrs.url
      (by decide) (by decide)
    rcases Bool.eq_false_or_eq_true
        (code_needs_extraction false [rowNoCrs] [rowNoCrs.url] rowNoCrs.url) with ht | hf
    · exact ht
    · have hx := h.mp hf
      revert hx
      decide

/-- C5: after the cache merge, (a) a requested upgraded URL's old rows are
replaced by its freshly extracted row (the new row is present and it is the
only row for that URL), (b) every existing row whose URL is not upgrading is
preserved unchanged, and (c) the persisted table has no duplicate rows per
URL.  Hypotheses: the existing table is a mapping (unique URLs), the
requested URLs form a set (no duplicates), and extraction returns a record
keyed by its input URL (the spec's interface for
`geotiff_extract_metadata`). -/
theorem merge_cache_replaces_preserves_nodup
    (transformCol : Bool) (rows : List CacheRow) (tc : List String)
    (extract : String → CacheRow)
    (hnd : (rows.map (fun r => r.url)).Nodup) (htc : tc.Nodup)
    (hx : ∀ u, (extract u).url = u) :
    (∀ u ∈ tc, (needs_upgrade transformCol rows).contains u = true →
      extract u ∈ merge_cache transformCol rows tc extract ∧
      ∀ r ∈ merge_cache transformCol rows tc extract, r.url = u → r = extract u) ∧
    (∀ r ∈ rows, (urls_upgrading transformCol rows tc).contains r.url = false →
      r ∈ merge_cache transformCol rows tc extract) ∧
    ((merge_cache transformCol rows tc extract).map (fun r => r.url)).Nodup := by
  have hutv_mem : ∀ u, u ∈ urls_to_validate transformCol rows tc ↔
      u ∈ tc ∧ ((existing_urls rows).contains u = false ∨
        (needs_upgrade transformCol rows).contains u = true) := by
    intro u
    unfold urls_to_validate
    simp only [List.mem_filter, Bool.or_eq_true, Bool.not_eq_true']
  have hupg_mem : ∀ u, u ∈ urls_upgrading transformCol rows tc ↔
      u ∈ needs_upgrade transformCol rows ∧ u ∈ urls_to_validate transformCol rows tc := by
    intro u
    unfold urls_upgrading
    simp only [List.mem_filter, contains_iff_mem_str]
  refine ⟨?_, ?_, ?_⟩
  · intro u hu hnu
    have hnu' : u ∈ needs_upgrade transformCol rows := contains_iff_mem_str.mp hnu
    have hutv : u ∈ urls_to_validate transformCol rows tc :=
      (hutv_mem u).mpr ⟨hu, Or.inr hnu⟩
    have hupg : u ∈ urls_upgrading transformCol rows tc := (hupg_mem u).mpr ⟨hnu', hutv⟩
    constructor
    · unfold merge_cache
      exact List.mem_append_right _ (List.mem_map_of_mem extract hutv)
    · intro r hr hru
      unfold merge_cache at hr
      rcases List.mem_append.mp hr with h | h
      · rw [List.mem_filter, Bool.not_eq_true'] at h
        have hfalse : (urls_upgrading transformCol rows tc).contains u = false := hru ▸ h.2
        rw [Bool.eq_false_iff, Ne, contains_iff_mem_str] at hfalse
        exact absurd hupg hfalse
      · rw [List.mem_map] at h
        obtain ⟨u', hu', he⟩ := h
        have : u' = u := by rw [← hx u', he, hru]
        rw [← he, this]
  · intro r hr hup
    unfold merge_cache
    apply List.mem_append_left
    rw [List.mem_filter]
    exact ⟨hr, by rw [Bool.not_eq_true', hup]⟩
  · unfold merge_cache
    rw [List.map_append]
    apply List.Nodup.append
    · exact ((List.filter_sublist rows).map (fun r => r.url)).nodup hnd
    · have hmap : ((urls_to_validate transformCol rows tc).map extract).map
          (fun r => r.url) = urls_to_validate transformCol rows tc := by
        rw [List.map_map]
        have : ∀ u ∈ urls_to_validate transformCol rows tc,
            ((fun r => r.url) ∘ extract) u = id u := fun u _ => hx u
        rw [List.map_congr_left this, List.map_id]
      rw [hmap]
      unfold urls_to_validate
      exact htc.filter _
    · intro u hu1 hu2
      rw [List.mem_map] at hu1
      obtain ⟨r, hrf, hru⟩ := hu1
      rw [List.mem_filter] at hrf
      rw [List.map_map, List.mem_map] at hu2
      obtain ⟨u', hu', he⟩ := hu2
      have huu : u' = u := (hx u').symm.trans he
      rw [huu] at hu'
      have hex : (existing_urls rows).contains u = true := by
        rw [contains_iff_mem_str]
        exact hru ▸ List.mem_map_of_mem (fun r => r.url) hrf.1
      rcases ((hutv_mem u).mp hu').2 with h | h
      · rw [hex] at h; cases h
      · have hmem2 : u ∈ urls_upgrading transformCol rows tc :=
          (hupg_mem u).mpr ⟨contains_iff_mem_str.mp h, hu'⟩
        have hnot := hrf.2
        rw [Bool.not_eq_true', Bool.eq_false_iff, Ne, contains_iff_mem_str, hru] at hnot
        exact hnot hmem2

/-- Witness for C5 on a concrete upgrade: one old-schema readable row for a
requested URL is replaced by its extraction. -/
theorem merge_cache_replaces_preserves_nodup_witness :
    ((merge_cache true
        [{ url := "u", is_geotiff := true, is_cog := false, epsg := none,
           height := none, width := none, transform := none, bounds := none }]
        ["u"]
        (fun v => { url := v, is_geotiff := true, is_cog := true, epsg := some 3005,
                    height := some 10, width := some 10, transform := some "t",
                    bounds := some "b" })).map (fun r => r.url)).Nodup :=
  (merge_cache_replaces_preserves_nodup true
    [{ url := "u", is_geotiff := true, is_cog := false, epsg := none,
       height := none, width := none, transform := none, bounds := none }]
    ["u"]
    (fun v => { url := v, is_geotiff := true, is_cog := true, epsg := some 3005,
                height := some 10, width := some 10, transform := some "t",
                bounds := some "b" })
    (by decide) (by decide) (fun _ => rfl)).2.2

/-! ### Collection link merge (`item_create.main`, lines 293-309)

`existing_item_hrefs` is computed once from the collection's links before the
loop; each synthesized item id whose href is not in that set gets an item
link appended. -/

/-- A `pystac.Link` as used here. -/
structure CLink where
  rel : String
  target : String
  media_type : String
deriving DecidableEq, Repr

/-- The item href built for a result: `f"{PATH_S3_STAC}/{result['id']}.json"`. -/
def itemHref (id : String) : String := PATH_S3_STAC ++ "/" ++ id ++ ".json"

/-- The target hrefs of the collection's item links. -/
def itemTargets (links : List CLink) : List String :=
  (links.filter (fun l => l.rel == "item")).map (fun l => l.target)

/-- The end-of-run link merge of `item_create.main`: append a link for each
result id whose href is absent from the PRE-LOOP set of item-link targets. -/
def merge_links (links : List CLink) (ids : List String) : List CLink :=
  links ++
    (ids.filter (fun id => !((itemTargets links).contains (itemHref id)))).map
      (fun id => { rel := "item", target := itemHref id, media_type := "application/json" })

/-- C1 counterexample: two synthesized items in the same batch deriving the
same item id both get links, so the merged collection holds two item links
with the same target href. -/
theorem merge_links_duplicate_in_batch :
    ¬(itemTargets (merge_links [] ["a", "a"])).Nodup := by decide

/-- The item-link targets after a merge: the old targets followed by the
hrefs of the ids that were not already present. -/
theorem itemTargets_merge_links (links : List CLink) (ids : List String) :
    itemTargets (merge_links links ids) =
      itemTargets links ++
        (ids.filter (fun id => !((itemTargets links).contains (itemHref id)))).map itemHref := by
  unfold merge_links itemTargets
  rw [List.filter_append, List.map_append]
  congr 1
  rw [List.filter_map]
  have htrue : ((fun l => l.rel == "item") ∘ fun id =>
      ({ rel := "item", target := itemHref id,
         media_type := "application/json" } : CLink)) = fun _ => true := by
    funext id
    simp
  rw [htrue, List.filter_true, List.map_map]
  rfl

/-- C1 amended: the merge adds a link only when no link present at the start
of the merge has that target, so (a) when the collection's item-link targets
are distinct and the batch's derived hrefs are distinct, the merged
collection has pairwise-distinct item-link targets, and (b) re-running the
merge with the same ids adds nothing (idempotence across runs). -/
theorem merge_links_amended :
    (∀ (links : List CLink) (ids : List String),
      (itemTargets links).Nodup → (ids.map itemHref).Nodup →
      (itemTargets (merge_links links ids)).Nodup) ∧
    (∀ (links : List CLink) (ids : List String),
      merge_links (merge_links links ids) ids = merge_links links ids) := by
  constructor
  · intro links ids hlk hids
    rw [itemTargets_merge_links]
    apply List.Nodup.append hlk
    · have hsub : (ids.filter (fun id =>
          !((itemTargets links).contains (itemHref id)))).map itemHref
          |>.Sublist (ids.map itemHref) :=
        (List.filter_sublist ids).map itemHref
      exact hsub.nodup hids
    · intro t ht1 ht2
      rw [List.mem_map] at ht2
      obtain ⟨id, hid, he⟩ := ht2
      rw [List.mem_filter, Bool.not_eq_true'] at hid
      have : (itemTargets links).contains t = false := he ▸ hid.2
      rw [Bool.eq_false_iff, Ne, contains_iff_mem_str] at this
      exact this ht1
  · intro links ids
    have hnone : ∀ id ∈ ids,
        (itemTargets (merge_links links ids)).contains (itemHref id) = true := by
      intro id hid
      rw [contains_iff_mem_str, itemTargets_merge_links, List.mem_append]
      rcases Bool.eq_false_or_eq_true
          ((itemTargets links).contains (itemHref id)) with hc | hc
      · exact Or.inl (contains_iff_mem_str.mp hc)
      · refine Or.inr ?_
        rw [List.mem_map]
        exact ⟨id, List.mem_filter.mpr ⟨hid, by rw [hc]; rfl⟩, rfl⟩
    have hnil : ids.filter (fun id =>
        !((itemTargets (merge_links links ids)).contains (itemHref id))) = [] := by
      rw [List.filter_eq_nil_iff]
      intro id hid
      simp only [Bool.not_eq_true]
      simp
      exact contains_iff_mem_str.mp (hnone id hid)
    rw [show merge_links (merge_links links ids) ids =
      merge_links links ids ++ (ids.filter (fun id =>
        !((itemTargets (merge_links links ids)).contains (itemHref id)))).map
          (fun id => { rel := "item", target := itemHref id,
                       media_type := "application/json" }) from rfl]
    rw [hnil, List.map_nil, List.append_nil]

/-- Witness for C1 amended: a concrete overlapping re-merge adds nothing and
keeps the targets distinct. -/
theorem merge_links_amended_witness :
    (itemTargets (merge_links [] ["a", "b"])).Nodup ∧
    merge_links (merge_links [] ["a", "b"]) ["a", "b"] = merge_links [] ["a", "b"] :=
  ⟨merge_links_amended.1 [] ["a", "b"] (by decide) (by decide),
   merge_links_amended.2 [] ["a", "b"]⟩

end StacDemBc
